import Mathlib

/-!
Shallow embedding of the core of `mk-screens` (a Rust program that builds a
contact-sheet mosaic image per video file), together with theorems checking
the natural-language specification against the code.

Machine integers (`i64`, `u32`, `usize`) are modelled as `Int`/`Nat`; the
values involved (durations, pixel coordinates, grid sizes) are far below any
overflow boundary, and every `f64` computation in the source is an exact
product or quotient of integers immediately truncated back to `i64` with an
`as i64` cast, which we model by exact rational arithmetic truncated toward
zero (`Int.tdiv`).
-/

/-! ### util.rs -/

/-- `util.rs` `sync_mtimes`: the pair of modified times of the source video
file and of the target image file, the only state `sync_mtimes` reads or
writes. -/
structure MtimeState where
  source_mtime : Int
  target_mtime : Int
deriving DecidableEq, Repr

/-- `util.rs` lines 69-82, `sync_mtimes(source_file, target_file)`: if the two
modified times are equal, return `false` and change nothing; otherwise set the
target's mtime to the source's and return `true`.  (The `fs::metadata` error
path is outside the model: the claims about this function condition on a
successful call.) -/
def sync_mtimes (st : MtimeState) : Bool × MtimeState :=
  if st.source_mtime = st.target_mtime then (false, st)
  else (true, { st with target_mtime := st.source_mtime })

/-- `screencaps.rs` lines 135-143, `finish_generation(pbar, video_path,
image_path)`: calls `sync_mtimes(video_path, image_path)` (source = video,
target = image) and finishes the progress bar; the resulting file-time state
is what matters here. -/
def finish_generation (st : MtimeState) : MtimeState :=
  (sync_mtimes st).2

/-- Rust `usize::from_str` (as used by `envvar_to_bool`): an optional leading
`+` followed by one or more ASCII digits, value below `2^64` (the target's
`usize::MAX + 1`); anything else, including the empty string, whitespace or
words such as `true`, fails. -/
def parse_usize (s : String) : Option Nat :=
  let digits := match s.data with
    | '+' :: rest => rest
    | l => l
  if digits = [] then none
  else if digits.all Char.isDigit then
    let n := digits.foldl (fun acc c => acc * 10 + (c.toNat - 48)) 0
    if n < 2 ^ 64 then some n else none
  else none

/-- `util.rs` lines 54-65, `envvar_to_bool(varname)`: the environment lookup
is modelled by an `Option String` (`none` when the variable is unset).  The
result is `true` exactly when the value parses as a `usize` that is nonzero. -/
def envvar_to_bool (value : Option String) : Bool :=
  match value with
  | none => false
  | some v =>
    match parse_usize v with
    | some n => n != 0
    | none => false

/-! ### video.rs : duration fallback -/

/-- `video.rs` lines 123-132 inside `VidInfo::new`: `duration` starts as the
selected video stream's duration; if that is `<= 0`, the loop over all of the
container's streams replaces it with the first stream duration that is `> 0`
(breaking out of the loop), leaving it unchanged when no stream has a positive
duration. -/
def resolve_duration (video_stream_duration : Int) (stream_durations : List Int) : Int :=
  if video_stream_duration ≤ 0 then
    match stream_durations.find? (fun d => 0 < d) with
    | some d => d
    | none => video_stream_duration
  else video_stream_duration

/-! ### settings.rs and video.rs : the capture scheduler -/

/-- `settings.rs` lines 270-272, `Settings::num_captures`:
`columns * rows + 1`. -/
def num_captures (columns rows : Nat) : Nat :=
  columns * rows + 1

/-- `video.rs` lines 157-167, `VidInfo::generate_capture_times`:
`start_at = (duration * skip/100) as i64`, `back_trim = (duration * 0.01) as
i64`, `interval = ((duration - start_at - back_trim) / num_captures) as i64`,
and the returned list is `[i * interval + start_at for i in 0..num_captures]`.
The `f64` arithmetic is exact rational arithmetic here, and every `as i64`
cast truncates toward zero, which `Int.tdiv` does. -/
def generate_capture_times (duration : Int) (skip : Nat) (columns rows : Nat) : List Int :=
  let start_at := Int.tdiv (duration * skip) 100
  let back_trim := Int.tdiv duration 100
  let n := num_captures columns rows
  let interval := Int.tdiv (duration - start_at - back_trim) n
  (List.range n).map (fun (i : Nat) => (i : Int) * interval + start_at)

/-! ### screencaps.rs : the mosaic placement cursor -/

/-- `screencaps.rs` lines 202-213: the cursor update performed after placing
the thumbnail with index `idx`: first `current_x += cap_width + 2`, then, if
`idx != 0 && idx % columns == 0`, `current_y += cap_height + 2` and
`current_x = 1`.  Coordinates are `i64` in the source. -/
def advance_cursor (columns cap_width cap_height : Nat) (idx : Nat) (pos : Int × Int) :
    Int × Int :=
  let x := pos.1 + ((cap_width : Int) + 2)
  if idx ≠ 0 ∧ idx % columns = 0 then (1, pos.2 + ((cap_height : Int) + 2))
  else (x, pos.2)

/-- `screencaps.rs` lines 188-213: the cursor position at which the thumbnail
with index `i` is placed; the cursor starts at `(1, 1)` and is advanced by
`advance_cursor` after each placement. -/
def cursor_at (columns cap_width cap_height : Nat) : Nat → Int × Int
  | 0 => (1, 1)
  | i + 1 => advance_cursor columns cap_width cap_height i
      (cursor_at columns cap_width cap_height i)

/-- The placement rule exactly as the spec words it, for comparison with the
code's `cursor_at`: "after placing sample `i`, advance `x += thumb_w +
gutter`; when `(i+1) % columns == 0`, reset `x=1` and advance `y += thumb_h +
gutter`". -/
def spec_advance_cursor (columns cap_width cap_height : Nat) (idx : Nat) (pos : Int × Int) :
    Int × Int :=
  if (idx + 1) % columns = 0 then (1, pos.2 + ((cap_height : Int) + 2))
  else (pos.1 + ((cap_width : Int) + 2), pos.2)

/-- Cursor positions under the spec's placement rule (row-major with exactly
`columns` thumbnails per row). -/
def spec_cursor_at (columns cap_width cap_height : Nat) : Nat → Int × Int
  | 0 => (1, 1)
  | i + 1 => spec_advance_cursor columns cap_width cap_height i
      (spec_cursor_at columns cap_width cap_height i)

/-- The grid row in which the code's loop places sample `i`: sample 0 is in
row 0, and the cursor wraps after every index that is a nonzero multiple of
`columns`, so for `i ≥ 1` the row is `(i - 1) / columns`. -/
def row_of (columns i : Nat) : Nat :=
  if i = 0 then 0 else (i - 1) / columns

/-- The grid column in which the code's loop places sample `i`: indices
`0..columns` all land in row 0 at column `i` (the first row overflows to
`columns + 1` entries), and for `i > columns` the column is
`(i - 1) % columns`. -/
def col_of (columns i : Nat) : Nat :=
  if i ≤ columns then i else (i - 1) % columns

/-- The set of pixels covered by the thumbnail placed for sample `i`
(`imageops::replace` of a `cap_width × cap_height` image at `cursor_at`). -/
def in_thumb_rect (columns cap_width cap_height : Nat) (i : Nat) (p : Int × Int) : Prop :=
  (cursor_at columns cap_width cap_height i).1 ≤ p.1 ∧
    p.1 < (cursor_at columns cap_width cap_height i).1 + (cap_width : Int) ∧
    (cursor_at columns cap_width cap_height i).2 ≤ p.2 ∧
    p.2 < (cursor_at columns cap_width cap_height i).2 + (cap_height : Int)

/-! ### screencaps.rs : the extraction loop of `generate` -/

/-- Abstract decode error (`eyre::Report` in the source). -/
structure DecodeError where
  code : Nat
deriving DecidableEq, Repr

/-- Abstract decoded frame: C4 is about control flow, so the pixel payload is
opaque. -/
structure Frame where
  data : Nat
deriving DecidableEq, Repr

/-- A file-system write performed by `screencaps::generate`. -/
inductive FileWrite where
  | individual (idx : Nat)
  | mosaic
deriving DecidableEq, Repr

/-- `screencaps.rs` lines 190-213: the extraction loop of `generate`.  The
capture times are walked in order; each timestamp is decoded
(`ScreenCap::new`, abstracted as the `extract` oracle); the first failure
aborts the loop (`let capture = maybe_capture?`); otherwise the thumbnail is
placed on the canvas and, when the `SAVE_INDIVIDUAL_CAPTURES` switch is on, an
individual capture file is written.  Returns the writes performed and the
first error, if any. -/
def capture_loop (extract : Int → Except DecodeError Frame) (save_individual : Bool) :
    List Int → Nat → List FileWrite × Option DecodeError
  | [], _ => ([], none)
  | t :: ts, idx =>
    match extract t with
    | .error e => ([], some e)
    | .ok _ =>
      let rest := capture_loop extract save_individual ts (idx + 1)
      ((if save_individual then [FileWrite.individual idx] else []) ++ rest.1, rest.2)

/-- `screencaps.rs` lines 180-215, the tail of `generate` after the
link-shortcut check: run the extraction loop over the scheduled times; only
when every extraction succeeded is the mosaic written
(`img.save_with_format`), after which `finish_generation` runs.  The result
is the list of file writes performed plus the error returned, if any. -/
def generate_tail (extract : Int → Except DecodeError Frame) (save_individual : Bool)
    (times : List Int) : List FileWrite × Option DecodeError :=
  let r := capture_loop extract save_individual times 0
  match r.2 with
  | some e => (r.1, some e)
  | none => (r.1 ++ [FileWrite.mosaic], none)

/-- `Except.isOk = false` means the extraction failed. -/
def extraction_fails (extract : Int → Except DecodeError Frame) (t : Int) : Bool :=
  match extract t with
  | .error _ => true
  | .ok _ => false

/-! ### lib.rs : the batch dispatcher -/

/-- Abstract per-job error (`eyre::Report` in the source). -/
structure JobError where
  code : Nat
deriving DecidableEq, Repr

/-- One per-video job as the dispatcher sees it: whether the input file still
exists at processing time, and the outcome `screencaps::generate` would
produce for it. -/
structure Job where
  input_exists : Bool
  gen_result : Except JobError Unit

/-- The terminal state in which `process_video` leaves the job's own progress
bar on its non-panicking paths. -/
inductive PbarState where
  | finished
  | abandoned_missing
  | abandoned_failed (e : JobError)
deriving DecidableEq, Repr

/-- `lib.rs` lines 43-66, `process_video`: a missing input file abandons the
progress bar with a message and returns `Ok(())`; otherwise
`screencaps::generate` runs, and on error either `result.unwrap()` fires when
the unwrap-errors debug switch is set (a panic, modelled as propagating the
error out of the job) or the error is logged and the bar abandoned, returning
`Ok(())`. -/
def process_video (unwrap_errors : Bool) (job : Job) : Except JobError PbarState :=
  if !job.input_exists then .ok .abandoned_missing
  else
    match job.gen_result with
    | .ok _ => .ok .finished
    | .error e =>
      if unwrap_errors then .error e
      else .ok (.abandoned_failed e)

/-- `lib.rs` lines 68-102, `rayon_process_videos`: one `process_video` call
per job; `try_for_each` (synchronous mode) and `collect::<Result<()>>`
(parallel mode) both stop at the first `Err` and otherwise return `Ok(())`.
The parallel mode completes in an unspecified order; the model uses the
synchronous (list) order, in which "first" is list position.  Returns the
terminal progress-bar states of the jobs that ran plus the aggregate
result. -/
def rayon_process_videos (unwrap_errors : Bool) :
    List Job → List PbarState × Except JobError Unit
  | [] => ([], .ok ())
  | j :: js =>
    match process_video unwrap_errors j with
    | .error e => ([], .error e)
    | .ok st =>
      let rest := rayon_process_videos unwrap_errors js
      (st :: rest.1, rest.2)

/-- The progress-bar state `process_video` records for a job on its
non-panicking paths (the projection of `process_video` with unwrap-errors
off). -/
def job_pbar (j : Job) : PbarState :=
  if !j.input_exists then .abandoned_missing
  else
    match j.gen_result with
    | .ok _ => .finished
    | .error e => .abandoned_failed e

/-- The first error among the jobs as `process_video` surfaces them in
unwrap-errors mode: the generate-error of the first job whose input exists
and whose generation fails (missing inputs are skipped with `Ok(())` even in
unwrap-errors mode). -/
def first_job_error : List Job → Option JobError
  | [] => none
  | j :: js =>
    if j.input_exists then
      match j.gen_result with
      | .error e => some e
      | .ok _ => first_job_error js
    else first_job_error js

/-! ### Helper lemmas -/

/-- Truncating division of a nonnegative integer by a positive one is
nonnegative and multiplies back to at most the dividend. -/
theorem tdiv_nonneg_mul_le (x m : Int) (hx : 0 ≤ x) (hm : 0 < m) :
    0 ≤ Int.tdiv x m ∧ Int.tdiv x m * m ≤ x := by
  rw [Int.tdiv_eq_ediv hx (le_of_lt hm)]
  exact ⟨Int.ediv_nonneg hx (le_of_lt hm), Int.ediv_mul_le x (ne_of_gt hm)⟩

/-- Unfolding of `generate_capture_times` to a single mapped range. -/
theorem generate_capture_times_eq (d : Int) (skip c r : Nat) :
    generate_capture_times d skip c r =
      (List.range (c * r + 1)).map
        (fun (i : Nat) => (i : Int) *
            Int.tdiv (d - Int.tdiv (d * skip) 100 - Int.tdiv d 100) (((c * r + 1 : Nat) : Int)) +
          Int.tdiv (d * skip) 100) :=
  rfl

/-- The three truncated quantities of the scheduler: `start_at` and
`back_trim` are nonnegative, the remaining span is nonnegative when the skip
percentage is at most 99, and the interval is nonnegative and fits
`num_captures` times into the remaining span. -/
theorem scheduler_facts (d : Int) (skip : Nat) (n : Nat) (hd : 0 < d) (hs : skip ≤ 99)
    (hn : 0 < n) :
    0 ≤ Int.tdiv (d * skip) 100 ∧ Int.tdiv (d * skip) 100 * 100 ≤ d * 99 ∧
      0 ≤ Int.tdiv d 100 ∧ Int.tdiv d 100 * 100 ≤ d ∧
      0 ≤ d - Int.tdiv (d * skip) 100 - Int.tdiv d 100 ∧
      0 ≤ Int.tdiv (d - Int.tdiv (d * skip) 100 - Int.tdiv d 100) n ∧
      Int.tdiv (d - Int.tdiv (d * skip) 100 - Int.tdiv d 100) n * n ≤
        d - Int.tdiv (d * skip) 100 - Int.tdiv d 100 := by
  have hd0 : (0 : Int) ≤ d := le_of_lt hd
  obtain ⟨ha0, ha1⟩ := tdiv_nonneg_mul_le (d * skip) 100 (by positivity) (by decide)
  obtain ⟨hb0, hb1⟩ := tdiv_nonneg_mul_le d 100 hd0 (by decide)
  have hskip : d * (skip : Int) ≤ d * 99 :=
    mul_le_mul_of_nonneg_left (by exact_mod_cast hs) hd0
  have ha1' : Int.tdiv (d * skip) 100 * 100 ≤ d * 99 := le_trans ha1 hskip
  have hrem : 0 ≤ d - Int.tdiv (d * skip) 100 - Int.tdiv d 100 := by omega
  obtain ⟨hq0, hq1⟩ := tdiv_nonneg_mul_le _ n hrem (by exact_mod_cast hn)
  exact ⟨ha0, ha1', hb0, hb1, hrem, hq0, hq1⟩

/-- Division and remainder of `c*q + s - 1` by `c` when `1 ≤ s < c`. -/
theorem pred_div_mod_of_lt (c q s : Nat) (hc : 0 < c) (hs1 : 1 ≤ s) (hs2 : s < c) :
    (c * q + s - 1) / c = q ∧ (c * q + s - 1) % c = s - 1 := by
  have h : c * q + s - 1 = (s - 1) + c * q := by
    generalize c * q = p
    omega
  rw [h, Nat.add_mul_div_left _ _ hc, Nat.add_mul_mod_self_left,
    Nat.div_eq_of_lt (by omega), Nat.mod_eq_of_lt (by omega)]
  exact ⟨Nat.zero_add q, rfl⟩

/-- `(c*m - 1) / c = m - 1` for positive `c` and `m`. -/
theorem mul_pred_div (c m : Nat) (hc : 0 < c) (hm : 1 ≤ m) :
    (c * m - 1) / c = m - 1 := by
  have h2 : c * m = c * (m - 1) + c := by
    conv_lhs => rw [show m = (m - 1) + 1 by omega]
    rw [Nat.mul_succ]
  have h : c * m - 1 = (c - 1) + c * (m - 1) := by
    rw [h2]
    generalize c * (m - 1) = p
    omega
  rw [h, Nat.add_mul_div_left _ _ hc, Nat.div_eq_of_lt (by omega)]
  omega

/-- Closed form of the code's placement cursor: sample `i` lands at grid cell
`(col_of c i, row_of c i)`, each cell being `cap + 2` pixels apart, offset by
the initial `(1, 1)`. -/
theorem cursor_at_eq (c w h : Nat) (hc : 1 ≤ c) (i : Nat) :
    cursor_at c w h i =
      (1 + (col_of c i : Int) * ((w : Int) + 2),
        1 + (row_of c i : Int) * ((h : Int) + 2)) := by
  induction i with
  | zero => simp [cursor_at, row_of, col_of]
  | succ i ih =>
    rw [cursor_at, ih]
    unfold advance_cursor
    by_cases hcond : i ≠ 0 ∧ i % c = 0
    · rw [if_pos hcond]
      obtain ⟨hi0, himod⟩ := hcond
      have hdm := Nat.div_add_mod i c
      rw [himod, Nat.add_zero] at hdm
      have hm1 : 1 ≤ i / c := by
        rcases Nat.eq_zero_or_pos (i / c) with hz | hp
        · rw [hz, Nat.mul_zero] at hdm
          exact absurd hdm.symm hi0
        · exact hp
      have hic : c ≤ i := by
        calc c = c * 1 := (Nat.mul_one c).symm
        _ ≤ c * (i / c) := Nat.mul_le_mul_left c hm1
        _ = i := hdm
      have hrow1 : row_of c (i + 1) = i / c := by
        unfold row_of
        rw [if_neg (Nat.succ_ne_zero i), Nat.add_sub_cancel]
      have hrow0 : row_of c i = i / c - 1 := by
        unfold row_of
        rw [if_neg hi0]
        conv_lhs => rw [← hdm]
        exact mul_pred_div c (i / c) hc hm1
      have hcol1 : col_of c (i + 1) = 0 := by
        unfold col_of
        rw [if_neg (by omega), Nat.add_sub_cancel, himod]
      rw [hrow1, hrow0, hcol1]
      simp only [Prod.mk.injEq]
      constructor
      · push_cast
        ring
      · rw [Nat.cast_sub hm1]
        push_cast
        ring
    · rw [if_neg hcond]
      push_neg at hcond
      by_cases hi0 : i = 0
      · subst hi0
        have h1c : (1 : Nat) ≤ c := hc
        simp only [row_of, col_of, if_pos rfl, if_pos (Nat.zero_le c), if_pos h1c,
          if_neg (Nat.one_ne_zero), Nat.sub_self, Nat.zero_div]
        simp only [Prod.mk.injEq]
        constructor
        · push_cast
          ring
        · push_cast
          ring
      · have hmod : i % c ≠ 0 := hcond hi0
        have hdm := Nat.div_add_mod i c
        have hs1 : 1 ≤ i % c := Nat.pos_of_ne_zero hmod
        have hs2 : i % c < c := Nat.mod_lt i hc
        obtain ⟨hdiv, hmodp⟩ := pred_div_mod_of_lt c (i / c) (i % c) hc hs1 hs2
        rw [hdm] at hdiv hmodp
        have hrow1 : row_of c (i + 1) = i / c := by
          unfold row_of
          rw [if_neg (Nat.succ_ne_zero i), Nat.add_sub_cancel]
        have hrow0 : row_of c i = i / c := by
          unfold row_of
          rw [if_neg hi0]
          exact hdiv
        by_cases hile : i + 1 ≤ c
        · have hcol1 : col_of c (i + 1) = i + 1 := by
            unfold col_of
            rw [if_pos hile]
          have hcol0 : col_of c i = i := by
            unfold col_of
            rw [if_pos (by omega)]
          rw [hrow1, hrow0, hcol1, hcol0]
          simp only [Prod.mk.injEq]
          constructor
          · push_cast
            ring
          · trivial
        · have hne : i ≠ c := by
            intro hie
            apply hmod
            rw [hie]
            exact Nat.mod_self c
          have hcol1 : col_of c (i + 1) = i % c := by
            unfold col_of
            rw [if_neg hile, Nat.add_sub_cancel]
          have hcol0 : col_of c i = i % c - 1 := by
            unfold col_of
            rw [if_neg (by omega)]
            exact hmodp
          rw [hrow1, hrow0, hcol1, hcol0]
          simp only [Prod.mk.injEq]
          constructor
          · rw [Nat.cast_sub hs1]
            push_cast
            ring
          · trivial


/-- `row_of` is zero exactly on the first `columns + 1` indices: the code's
wrap condition `idx != 0 && idx % columns == 0` first fires after index
`columns`, so indices `0 .. columns` all stay in the first row. -/
theorem row_of_eq_zero_iff (c i : Nat) (hc : 0 < c) :
    row_of c i = 0 ↔ i ≤ c := by
  unfold row_of
  by_cases hi0 : i = 0
  · subst hi0
    simp
  · rw [if_neg hi0, Nat.div_eq_zero_iff hc]
    omega

/-- For `ρ ≥ 1`, row `ρ` holds exactly the `columns` indices
`ρ*columns + 1 .. ρ*columns + columns`. -/
theorem row_of_eq_pos_iff (c i ρ : Nat) (hc : 0 < c) (hρ : 1 ≤ ρ) :
    row_of c i = ρ ↔ ρ * c + 1 ≤ i ∧ i ≤ ρ * c + c := by
  rw [Nat.mul_comm ρ c]
  unfold row_of
  by_cases hi0 : i = 0
  · subst hi0
    rw [if_pos rfl]
    have hpc : 1 ≤ c * ρ := Nat.mul_pos hc hρ
    constructor
    · intro hzρ
      omega
    · intro hbad
      generalize c * ρ = p at hpc hbad
      omega
  · rw [if_neg hi0]
    constructor
    · intro hdiv
      have hdm := Nat.div_add_mod (i - 1) c
      rw [hdiv] at hdm
      have hmlt : (i - 1) % c < c := Nat.mod_lt _ hc
      generalize c * ρ = p at hdm ⊢
      generalize (i - 1) % c = m at hdm hmlt
      omega
    · rintro ⟨hlo, hhi⟩
      have hsplit : i - 1 = (i - 1 - c * ρ) + c * ρ := by
        generalize c * ρ = p at hlo ⊢
        omega
      have hslt : i - 1 - c * ρ < c := by
        generalize c * ρ = p at hhi ⊢
        omega
      rw [hsplit, Nat.add_mul_div_left _ _ hc, Nat.div_eq_of_lt hslt, Nat.zero_add]

/-- Distinct sample indices are placed in distinct grid cells. -/
theorem rowcol_inj (c i j : Nat) (hc : 0 < c)
    (hrow : row_of c i = row_of c j) (hcol : col_of c i = col_of c j) : i = j := by
  by_cases h0 : row_of c i = 0
  · have h0j : row_of c j = 0 := by rw [← hrow]; exact h0
    have hi := (row_of_eq_zero_iff c i hc).mp h0
    have hj := (row_of_eq_zero_iff c j hc).mp h0j
    unfold col_of at hcol
    rw [if_pos hi, if_pos hj] at hcol
    exact hcol
  · have h0j : ¬ row_of c j = 0 := by rw [← hrow]; exact h0
    have hi : ¬ i ≤ c := fun hle => h0 ((row_of_eq_zero_iff c i hc).mpr hle)
    have hj : ¬ j ≤ c := fun hle => h0j ((row_of_eq_zero_iff c j hc).mpr hle)
    unfold col_of at hcol
    rw [if_neg hi, if_neg hj] at hcol
    unfold row_of at hrow
    rw [if_neg (by omega), if_neg (by omega)] at hrow
    have hdi := Nat.div_add_mod (i - 1) c
    have hdj := Nat.div_add_mod (j - 1) c
    rw [hrow, hcol] at hdi
    generalize (j - 1) % c = m at hdi hdj
    generalize c * ((j - 1) / c) = p at hdi hdj
    omega

/-- Distinct sample indices get cursor positions separated by at least one
full thumbnail plus gutter, horizontally (same row) or vertically (different
rows). -/
theorem cursor_sep (c w h : Nat) (hc : 1 ≤ c) (i j : Nat) (hij : i ≠ j) :
    (cursor_at c w h i).1 + (w : Int) + 2 ≤ (cursor_at c w h j).1 ∨
      (cursor_at c w h j).1 + (w : Int) + 2 ≤ (cursor_at c w h i).1 ∨
      (cursor_at c w h i).2 + (h : Int) + 2 ≤ (cursor_at c w h j).2 ∨
      (cursor_at c w h j).2 + (h : Int) + 2 ≤ (cursor_at c w h i).2 := by
  rw [cursor_at_eq c w h hc i, cursor_at_eq c w h hc j]
  dsimp only
  by_cases hrow : row_of c i = row_of c j
  · have hcol : col_of c i ≠ col_of c j := fun hcol => hij (rowcol_inj c i j hc hrow hcol)
    rcases Nat.lt_or_ge (col_of c i) (col_of c j) with hlt | hge
    · left
      have h1 : (col_of c i : Int) + 1 ≤ (col_of c j : Int) := by exact_mod_cast hlt
      have h2 := mul_le_mul_of_nonneg_right h1 (show (0 : Int) ≤ (w : Int) + 2 by positivity)
      have h3 : ((col_of c i : Int) + 1) * ((w : Int) + 2)
          = (col_of c i : Int) * ((w : Int) + 2) + (w : Int) + 2 := by ring
      rw [h3] at h2
      linarith
    · right
      left
      have hlt : col_of c j < col_of c i := lt_of_le_of_ne hge fun e => hcol e.symm
      have h1 : (col_of c j : Int) + 1 ≤ (col_of c i : Int) := by exact_mod_cast hlt
      have h2 := mul_le_mul_of_nonneg_right h1 (show (0 : Int) ≤ (w : Int) + 2 by positivity)
      have h3 : ((col_of c j : Int) + 1) * ((w : Int) + 2)
          = (col_of c j : Int) * ((w : Int) + 2) + (w : Int) + 2 := by ring
      rw [h3] at h2
      linarith
  · rcases Nat.lt_or_ge (row_of c i) (row_of c j) with hlt | hge
    · right
      right
      left
      have h1 : (row_of c i : Int) + 1 ≤ (row_of c j : Int) := by exact_mod_cast hlt
      have h2 := mul_le_mul_of_nonneg_right h1 (show (0 : Int) ≤ (h : Int) + 2 by positivity)
      have h3 : ((row_of c i : Int) + 1) * ((h : Int) + 2)
          = (row_of c i : Int) * ((h : Int) + 2) + (h : Int) + 2 := by ring
      rw [h3] at h2
      linarith
    · right
      right
      right
      have hlt : row_of c j < row_of c i := lt_of_le_of_ne hge fun e => hrow e.symm
      have h1 : (row_of c j : Int) + 1 ≤ (row_of c i : Int) := by exact_mod_cast hlt
      have h2 := mul_le_mul_of_nonneg_right h1 (show (0 : Int) ≤ (h : Int) + 2 by positivity)
      have h3 : ((row_of c j : Int) + 1) * ((h : Int) + 2)
          = (row_of c j : Int) * ((h : Int) + 2) + (h : Int) + 2 := by ring
      rw [h3] at h2
      linarith

/-! ### Theorems about the claims -/

/-- C1 counterexample: with columns = 2, the code's wrap condition
`idx != 0 && idx % columns == 0` differs from the spec's
`(i+1) % columns == 0`: sample 2 is placed by the code at `(25, 1)` (still in
the first canvas row) where the claimed rule places it at `(1, 13)` (second
row); over the 5 samples of a 2×2 grid (`columns*rows + 1`), the first row
receives 3 thumbnails, not `columns = 2`. -/
theorem placement_counterexample :
    cursor_at 2 10 10 2 = (25, 1) ∧ spec_cursor_at 2 10 10 2 = (1, 13) ∧
      cursor_at 2 10 10 2 ≠ spec_cursor_at 2 10 10 2 ∧
      (List.range 5).countP (fun i => (cursor_at 2 10 10 i).2 == 1) = 3 := by
  decide

/-- C1 (amended): the cursor starts at `(1, 1)` and after placing sample `i`
the x cursor advances by `thumb_w + gutter` (gutter = 2), but the cursor
wraps to a new row exactly when `i ≠ 0 ∧ i % columns == 0` — one step later
than the claimed `(i+1) % columns == 0` — so placement is row-major in
schedule order with the first row receiving the `columns + 1` samples
`0 .. columns` and every later row `ρ` exactly the `columns` samples
`ρ*columns + 1 .. ρ*columns + columns`. -/
theorem placement_row_major (c w h : Nat) (hc : 1 ≤ c) :
    (∀ i : Nat, cursor_at c w h i =
        (1 + (col_of c i : Int) * ((w : Int) + 2),
          1 + (row_of c i : Int) * ((h : Int) + 2))) ∧
      (∀ i : Nat, row_of c i = 0 ↔ i ≤ c) ∧
      ∀ i ρ : Nat, 1 ≤ ρ → (row_of c i = ρ ↔ ρ * c + 1 ≤ i ∧ i ≤ ρ * c + c) :=
  ⟨cursor_at_eq c w h hc, fun i => row_of_eq_zero_iff c i hc,
    fun i ρ hρ => row_of_eq_pos_iff c i ρ hc hρ⟩

/-- Witness for C1's amended theorem at columns = 2, 10×10 thumbnails. -/
theorem placement_row_major_witness :
    1 ≤ 2 ∧
      cursor_at 2 10 10 3 =
        (1 + (col_of 2 3 : Int) * (((10 : Nat) : Int) + 2),
          1 + (row_of 2 3 : Int) * (((10 : Nat) : Int) + 2)) ∧
      (row_of 2 3 = 0 ↔ 3 ≤ 2) ∧
      (row_of 2 5 = 2 ↔ 2 * 2 + 1 ≤ 5 ∧ 5 ≤ 2 * 2 + 2) :=
  ⟨by decide, (placement_row_major 2 10 10 (by decide)).1 3,
    (placement_row_major 2 10 10 (by decide)).2.1 3,
    (placement_row_major 2 10 10 (by decide)).2.2 5 2 (by decide)⟩

/-- C6: thumbnails placed for distinct sample indices occupy disjoint pixel
rectangles: the deterministic cursor keeps any two placed
`cap_width × cap_height` images at least one gutter apart horizontally or
vertically, so no pixel lies in two of them. -/
theorem thumbnails_disjoint (c w h : Nat) (hc : 1 ≤ c) (i j : Nat) (hij : i ≠ j)
    (p : Int × Int) :
    ¬ (in_thumb_rect c w h i p ∧ in_thumb_rect c w h j p) := by
  rintro ⟨⟨hi1, hi2, hi3, hi4⟩, hj1, hj2, hj3, hj4⟩
  rcases cursor_sep c w h hc i j hij with hs | hs | hs | hs <;> linarith

/-- Witness for C6 at columns = 2, 10×10 thumbnails, samples 0 and 1, pixel
`(5, 5)`. -/
theorem thumbnails_disjoint_witness :
    1 ≤ 2 ∧ (0 : Nat) ≠ 1 ∧
      ¬ (in_thumb_rect 2 10 10 0 (5, 5) ∧ in_thumb_rect 2 10 10 1 (5, 5)) :=
  ⟨by decide, by decide, thumbnails_disjoint 2 10 10 (by decide) 0 1 (by decide) (5, 5)⟩

/-- C2 counterexample: with columns = 3, rows = 2 and skip = 5 the scheduler
returns `columns * rows + 1 = 7` timestamps, not 6 as claimed, already for
duration 1000; moreover, at duration 7 the leading truncation
`(duration * 0.05) as i64` makes the first timestamp 0, strictly below 5% of
the duration, so the claimed lower bound only holds after taking the floor. -/
theorem capture_count_counterexample :
    (generate_capture_times 1000 5 3 2).length ≠ 6 ∧
      (generate_capture_times 1000 5 3 2).length = 7 ∧
      (∃ t ∈ generate_capture_times 7 5 3 2, 100 * t < 5 * 7) := by
  decide

/-- C2 (amended): for every positive duration, with columns = 3, rows = 2 and
skip = 5 the scheduler returns exactly 7 (= columns·rows + 1) non-decreasing
timestamps, each at least `⌊5% · duration⌋` and below 99% of the duration. -/
theorem capture_times_scenario1 (d : Int) (hd : 0 < d) :
    (generate_capture_times d 5 3 2).length = 7 ∧
      (generate_capture_times d 5 3 2).Sorted (· ≤ ·) ∧
      ∀ t ∈ generate_capture_times d 5 3 2,
        Int.tdiv (d * 5) 100 ≤ t ∧ 100 * t < 99 * d := by
  obtain ⟨ha0, ha5⟩ := tdiv_nonneg_mul_le (d * 5) 100 (by positivity) (by decide)
  obtain ⟨hb0, hb1⟩ := tdiv_nonneg_mul_le d 100 (le_of_lt hd) (by decide)
  have hrem : 0 ≤ d - Int.tdiv (d * 5) 100 - Int.tdiv d 100 := by linarith
  obtain ⟨hq0, hq1⟩ :=
    tdiv_nonneg_mul_le (d - Int.tdiv (d * 5) 100 - Int.tdiv d 100) 7 hrem (by decide)
  have heq : generate_capture_times d 5 3 2 =
      (List.range 7).map
        (fun (i : Nat) => (i : Int) *
            Int.tdiv (d - Int.tdiv (d * 5) 100 - Int.tdiv d 100) 7 + Int.tdiv (d * 5) 100) :=
    rfl
  set a := Int.tdiv (d * 5) 100 with ha_def
  set b := Int.tdiv d 100 with hb_def
  set q := Int.tdiv (d - a - b) 7 with hq_def
  refine ⟨by rw [heq]; simp, ?_, ?_⟩
  · rw [heq]
    refine List.Pairwise.map _ ?_ (List.sorted_lt_range 7)
    intro i j hij
    have : (i : Int) ≤ (j : Int) := by exact_mod_cast le_of_lt hij
    have := mul_le_mul_of_nonneg_right this hq0
    linarith
  · intro t ht
    rw [heq] at ht
    simp only [List.mem_map, List.mem_range] at ht
    obtain ⟨i, hi, rfl⟩ := ht
    have hi6 : (i : Int) ≤ 6 := by exact_mod_cast Nat.lt_succ_iff.mp hi
    have hu0 : 0 ≤ (i : Int) * q := mul_nonneg (Int.natCast_nonneg i) hq0
    have hu6 : (i : Int) * q ≤ 6 * q := mul_le_mul_of_nonneg_right hi6 hq0
    have hq7 : q * 7 ≤ d - a - b := by exact_mod_cast hq1
    constructor
    · linarith
    · linarith

/-- Witness for C2's amended theorem at duration 1000. -/
theorem capture_times_scenario1_witness :
    (0 : Int) < 1000 ∧
      ((generate_capture_times 1000 5 3 2).length = 7 ∧
        (generate_capture_times 1000 5 3 2).Sorted (· ≤ ·) ∧
        ∀ t ∈ generate_capture_times 1000 5 3 2,
          Int.tdiv (1000 * 5) 100 ≤ t ∧ 100 * t < 99 * 1000) :=
  ⟨by decide, capture_times_scenario1 1000 (by decide)⟩

/-- C3 counterexample: with a skip percentage above 100 (skip = 200 is a
representable configuration value), duration 100 and a 1×1 grid, the scheduler
returns `[200, 150]`: the timestamps decrease and both lie outside
`[0, duration)`, refuting the claim as stated for unrestricted settings. -/
theorem capture_times_range_counterexample :
    generate_capture_times 100 200 1 1 = [200, 150] ∧
      ¬ ((generate_capture_times 100 200 1 1).Sorted (· ≤ ·) ∧
        ∀ t ∈ generate_capture_times 100 200 1 1, 0 ≤ t ∧ t < 100) := by
  decide

/-- C3 (amended): for every columns ≥ 1, rows ≥ 1, duration > 0 **and skip
percentage at most 99**, `generate_capture_times` returns exactly
`columns * rows + 1` (the fixed constant offset is 1) non-decreasing
timestamps, all within `[0, duration)`.  (The bound on the skip percentage is
forced by the counterexample: the code never clamps it.) -/
theorem capture_times_spec (d : Int) (skip c r : Nat)
    (hd : 0 < d) (hs : skip ≤ 99) :
    (generate_capture_times d skip c r).length = c * r + 1 ∧
      (generate_capture_times d skip c r).Sorted (· ≤ ·) ∧
      ∀ t ∈ generate_capture_times d skip c r, 0 ≤ t ∧ t < d := by
  obtain ⟨ha0, ha1, hb0, hb1, hrem, hq0, hq1⟩ :=
    scheduler_facts d skip (c * r + 1) hd hs (Nat.succ_pos _)
  rw [generate_capture_times_eq]
  set a := Int.tdiv (d * skip) 100 with ha_def
  set b := Int.tdiv d 100 with hb_def
  set q := Int.tdiv (d - a - b) (((c * r + 1 : Nat) : Int)) with hq_def
  refine ⟨by simp, ?_, ?_⟩
  · refine List.Pairwise.map _ ?_ (List.sorted_lt_range (c * r + 1))
    intro i j hij
    have : (i : Int) ≤ (j : Int) := by exact_mod_cast le_of_lt hij
    have := mul_le_mul_of_nonneg_right this hq0
    linarith
  · intro t ht
    simp only [List.mem_map, List.mem_range] at ht
    obtain ⟨i, hi, rfl⟩ := ht
    have hu0 : 0 ≤ (i : Int) * q := mul_nonneg (Int.natCast_nonneg i) hq0
    refine ⟨by linarith, ?_⟩
    by_cases hqz : q = 0
    · simp only [hqz, mul_zero, zero_add]
      linarith
    · have hq1' : (1 : Int) ≤ q := by omega
      have hiN : (i : Int) ≤ ((c * r : Nat) : Int) := by
        exact_mod_cast Nat.lt_succ_iff.mp hi
      have hu : (i : Int) * q ≤ ((c * r : Nat) : Int) * q :=
        mul_le_mul_of_nonneg_right hiN hq0
      have hcast : ((c * r : Nat) : Int) * q = q * ((c * r + 1 : Nat) : Int) - q := by
        push_cast
        ring
      linarith

/-- Witness for C3's amended theorem: duration 360000, skip 5, 2×2 grid. -/
theorem capture_times_spec_witness :
    (0 : Int) < 360000 ∧ 5 ≤ 99 ∧
      ((generate_capture_times 360000 5 2 2).length = 2 * 2 + 1 ∧
        (generate_capture_times 360000 5 2 2).Sorted (· ≤ ·) ∧
        ∀ t ∈ generate_capture_times 360000 5 2 2, 0 ≤ t ∧ t < 360000) :=
  ⟨by decide, by decide, capture_times_spec 360000 5 2 2 (by decide) (by decide)⟩

/-- C8: after `finish_generation` (hence after every successful job), the
target image file's modified time equals the source video file's modified
time, and the source's own mtime is untouched. -/
theorem finish_generation_syncs_mtime (st : MtimeState) :
    (finish_generation st).target_mtime = st.source_mtime ∧
      (finish_generation st).source_mtime = st.source_mtime := by
  unfold finish_generation sync_mtimes
  by_cases h : st.source_mtime = st.target_mtime <;> simp [h]

/-- C9: `sync_mtimes` returns `false` and changes nothing when the two mtimes
are already equal, and immediately re-running it after any call returns
`false` and changes nothing (idempotence). -/
theorem sync_mtimes_idempotent (st : MtimeState) :
    (st.source_mtime = st.target_mtime → sync_mtimes st = (false, st)) ∧
      sync_mtimes (sync_mtimes st).2 = (false, (sync_mtimes st).2) := by
  constructor
  · intro h
    simp [sync_mtimes, h]
  · by_cases h : st.source_mtime = st.target_mtime <;> simp [sync_mtimes, h]

/-- Witness for C9 at concrete states: mtimes already equal at `(5,5)`, and a
second call after syncing `(5,7)` is a no-op. -/
theorem sync_mtimes_idempotent_witness :
    sync_mtimes ⟨5, 5⟩ = (false, ⟨5, 5⟩) ∧
      sync_mtimes (sync_mtimes ⟨5, 7⟩).2 = (false, (sync_mtimes ⟨5, 7⟩).2) :=
  ⟨(sync_mtimes_idempotent ⟨5, 5⟩).1 rfl, (sync_mtimes_idempotent ⟨5, 7⟩).2⟩

/-- C10: `envvar_to_bool` is `false` for an unset variable, the empty string,
`"0"`, and non-numeric values such as `"true"` or `"yes"`; it is `true` for
`"1"` and `"2"`; and in general it is `true` exactly when the value parses as
a nonzero unsigned integer. -/
theorem envvar_to_bool_nonzero_usize :
    envvar_to_bool none = false ∧
      envvar_to_bool (some "") = false ∧
      envvar_to_bool (some "0") = false ∧
      envvar_to_bool (some "true") = false ∧
      envvar_to_bool (some "yes") = false ∧
      envvar_to_bool (some "1") = true ∧
      envvar_to_bool (some "2") = true ∧
      ∀ v : String, envvar_to_bool (some v) = true ↔
        ∃ n : Nat, parse_usize v = some n ∧ n ≠ 0 := by
  refine ⟨by decide, by decide, by decide, by decide, by decide, by decide, by decide, ?_⟩
  intro v
  unfold envvar_to_bool
  cases h : parse_usize v with
  | none => simp [h]
  | some n => simp [h, bne_iff_ne]

/-- C7: when the selected video stream reports a non-positive duration and
some stream of the container has a positive duration, `VidInfo::new` stores a
positive duration that is one of the container's stream durations (the first
positive one). -/
theorem resolve_duration_fallback (vd : Int) (durs : List Int)
    (hvd : vd ≤ 0) (hex : ∃ d ∈ durs, 0 < d) :
    0 < resolve_duration vd durs ∧ resolve_duration vd durs ∈ durs := by
  unfold resolve_duration
  simp only [if_pos hvd]
  obtain ⟨d, hd, hdpos⟩ := hex
  have hsome : (durs.find? (fun d => 0 < d)).isSome := by
    rw [List.find?_isSome]
    exact ⟨d, hd, by simpa using hdpos⟩
  obtain ⟨x, hx⟩ := Option.isSome_iff_exists.mp hsome
  rw [hx]
  have hxp := List.find?_some hx
  exact ⟨by simpa using hxp, List.mem_of_find?_eq_some hx⟩

/-- Witness for C7: video stream duration `0`, container stream durations
`[0, -3, 250, 100]` (the video stream itself plus two others, one positive). -/
theorem resolve_duration_fallback_witness :
    (0 : Int) ≤ 0 ∧ (∃ d ∈ [(0 : Int), -3, 250, 100], 0 < d) ∧
      0 < resolve_duration 0 [0, -3, 250, 100] ∧
        resolve_duration 0 [0, -3, 250, 100] ∈ [(0 : Int), -3, 250, 100] :=
  ⟨by decide, by decide,
    resolve_duration_fallback 0 [0, -3, 250, 100] (by decide) (by decide)⟩

/-- If some capture time fails to extract, the extraction loop returns an
error, whatever suffix of the schedule and starting index it is run on. -/
theorem capture_loop_fails (extract : Int → Except DecodeError Frame) (si : Bool) :
    ∀ (ts : List Int) (idx : Nat),
      (∃ t ∈ ts, extraction_fails extract t = true) →
      (capture_loop extract si ts idx).2.isSome = true := by
  intro ts
  induction ts with
  | nil =>
    intro idx h
    simp at h
  | cons t ts ih =>
    intro idx h
    obtain ⟨u, hu, hfail⟩ := h
    rcases List.mem_cons.mp hu with rfl | hmem
    · cases hx : extract u with
      | error e => simp [capture_loop, hx]
      | ok f =>
        unfold extraction_fails at hfail
        rw [hx] at hfail
        simp at hfail
    · cases hx : extract t with
      | error e => simp [capture_loop, hx]
      | ok f =>
        simp only [capture_loop, hx]
        exact ih (idx + 1) ⟨u, hmem, hfail⟩

/-- The extraction loop never writes the mosaic file: only `generate`'s final
save does, after the loop has fully succeeded. -/
theorem capture_loop_no_mosaic (extract : Int → Except DecodeError Frame) (si : Bool) :
    ∀ (ts : List Int) (idx : Nat),
      FileWrite.mosaic ∉ (capture_loop extract si ts idx).1 := by
  intro ts
  induction ts with
  | nil =>
    intro idx
    simp [capture_loop]
  | cons t ts ih =>
    intro idx
    cases hx : extract t with
    | error e => simp [capture_loop, hx]
    | ok f =>
      simp only [capture_loop, hx]
      intro hmem
      rcases List.mem_append.mp hmem with hl | hr
      · cases si <;> simp_all
      · exact ih (idx + 1) hr

/-- C4: if extraction fails for any one of the scheduled timestamps, the
per-video job returns an error before the mosaic is saved, and the mosaic
output file is never written (the failure aborts the loop before
`img.save_with_format`). -/
theorem generate_no_partial_mosaic (extract : Int → Except DecodeError Frame)
    (si : Bool) (times : List Int)
    (hfail : ∃ t ∈ times, extraction_fails extract t = true) :
    (generate_tail extract si times).2.isSome = true ∧
      FileWrite.mosaic ∉ (generate_tail extract si times).1 := by
  have herr := capture_loop_fails extract si times 0 hfail
  have hnom := capture_loop_no_mosaic extract si times 0
  cases hres : (capture_loop extract si times 0).2 with
  | none =>
    rw [hres] at herr
    simp at herr
  | some e =>
    simp only [generate_tail, hres]
    exact ⟨rfl, hnom⟩

/-- Witness for C4: three scheduled times, of which time 2 fails to decode;
individual-capture saving is on. -/
theorem generate_no_partial_mosaic_witness :
    (∃ t ∈ [(0 : Int), 1, 2],
        extraction_fails
          (fun t => if t = 2 then Except.error ⟨7⟩ else Except.ok ⟨1⟩) t = true) ∧
      ((generate_tail (fun t => if t = 2 then Except.error ⟨7⟩ else Except.ok ⟨1⟩) true
            [0, 1, 2]).2.isSome = true ∧
        FileWrite.mosaic ∉
          (generate_tail (fun t => if t = 2 then Except.error ⟨7⟩ else Except.ok ⟨1⟩) true
            [0, 1, 2]).1) :=
  ⟨by decide, generate_no_partial_mosaic _ true [0, 1, 2] (by decide)⟩

/-- With the unwrap-errors switch off, `process_video` always returns
`Ok(())` and leaves the job's own progress bar describing the outcome. -/
theorem process_video_isolates (j : Job) :
    process_video false j = .ok (job_pbar j) := by
  cases hj : j.input_exists <;> cases hr : j.gen_result <;>
    simp [process_video, job_pbar, hj, hr]

/-- C5: with unwrap-errors off the dispatcher's return value is success no
matter how the jobs fare, every job runs, and each job's outcome (success,
failure, or missing input) is recorded on that job's own progress bar; with
unwrap-errors on, the first job error propagates as the process's failure
(missing inputs still return `Ok` before `generate` runs). -/
theorem dispatcher_isolates_failures (jobs : List Job) :
    ((rayon_process_videos false jobs).2 = .ok () ∧
        (rayon_process_videos false jobs).1 = jobs.map job_pbar) ∧
      (rayon_process_videos true jobs).2 =
        (match first_job_error jobs with
          | some e => .error e
          | none => .ok ()) := by
  induction jobs with
  | nil => exact ⟨⟨rfl, rfl⟩, rfl⟩
  | cons j js ih =>
    refine ⟨⟨?_, ?_⟩, ?_⟩
    · simp only [rayon_process_videos, process_video_isolates j]
      exact ih.1.1
    · simp only [rayon_process_videos, process_video_isolates j, List.map_cons]
      rw [ih.1.2]
    · by_cases hj : j.input_exists = true
      · cases hr : j.gen_result with
        | ok v =>
          have hp : process_video true j = .ok .finished := by
            simp [process_video, hj, hr]
          have hf : first_job_error (j :: js) = first_job_error js := by
            simp [first_job_error, hj, hr]
          simp only [rayon_process_videos, hp, hf]
          exact ih.2
        | error e =>
          have hp : process_video true j = .error e := by
            simp [process_video, hj, hr]
          have hf : first_job_error (j :: js) = some e := by
            simp [first_job_error, hj, hr]
          simp only [rayon_process_videos, hp, hf]
      · have hj' : j.input_exists = false := by simpa using hj
        have hp : process_video true j = .ok .abandoned_missing := by
          simp [process_video, hj']
        have hf : first_job_error (j :: js) = first_job_error js := by
          simp [first_job_error, hj']
        simp only [rayon_process_videos, hp, hf]
        exact ih.2
